import Mathlib

/-!
# Verification of the weekly-plan core (period derivation, workday
# computation, plan-hours aggregation, scheduler guard)

Shallow embedding of `app/utils.py`, the period/stat functions of
`app/crud.py`, and the auto-send tick of `app/scheduler.py`.

Conventions:
* A calendar date is embedded as an integer: the number of days since
  1970-01-01 (a Thursday), negative for earlier dates.  `datetime.date`
  arithmetic (`+ timedelta(days=n)`, comparisons) becomes integer
  arithmetic; `date.isoweekday()` and `date.month` are computed from the
  day number with the standard proleptic-Gregorian conversion
  (`civilFromDays` below, validated on concrete dates).
* Hours (`estimated_hours`, detail `hours`, column type Numeric(6, 1))
  are embedded as exact rationals; SQL NULL becomes `Option`.
* Python's builtin `round(x, 1)` is embedded as rounding to the nearest
  multiple of 1/10 with ties to the even tenth (`pyRound1`), the
  documented tie behaviour of `round`.
* Database tables are embedded as lists of rows inside a `Store`; a
  SQLAlchemy relationship (`plan.items`, `item.details`) is the list of
  child rows keyed by the parent id.  Only the columns the verified
  operations read are embedded.
-/

/-! ## Calendar primitives -/

/-- ISO weekday (`date.isoweekday()`): Monday = 1 … Sunday = 7, for a day
number relative to 1970-01-01 (a Thursday). -/
def isoWeekday (d : ℤ) : ℤ := (d + 3) % 7 + 1

/-- Proleptic-Gregorian conversion from a day number (days since
1970-01-01) to `(year, month, day-of-month)`; the standard civil-calendar
algorithm. -/
def civilFromDays (z0 : ℤ) : ℤ × ℤ × ℤ :=
  let z := z0 + 719468
  let era := Int.fdiv z 146097
  let doe := z - era * 146097
  let yoe := (doe - doe / 1460 + doe / 36524 - doe / 146096) / 365
  let y := yoe + era * 400
  let doy := doe - (365 * yoe + yoe / 4 - yoe / 100)
  let mp := (5 * doy + 2) / 153
  let dom := doy - (153 * mp + 2) / 5 + 1
  let m := if mp < 10 then mp + 3 else mp - 9
  (if m ≤ 2 then y + 1 else y, m, dom)

/-- Inverse conversion: day number of the civil date `(y, m, d)`. -/
def daysFromCivil (y m d : ℤ) : ℤ :=
  let y' := if m ≤ 2 then y - 1 else y
  let era := Int.fdiv y' 400
  let yoe := y' - era * 400
  let mp := (m + 9) % 12
  let doy := (153 * mp + 2) / 5 + d - 1
  let doe := yoe * 365 + yoe / 4 - yoe / 100 + doy
  era * 146097 + doe - 719468

/-- Calendar month (`date.month`) of a day number. -/
def civilMonth (z : ℤ) : ℤ := (civilFromDays z).2.1

/-- Monday of the ISO week containing `d`
(`for_date - timedelta(days=iso_weekday - 1)`). -/
def isoMonday (d : ℤ) : ℤ := d - (isoWeekday d - 1)

/-- ISO year of the ISO week containing `d`: the civil year of that
week's Thursday (`date.isocalendar()[0]`). -/
def isoYearOf (d : ℤ) : ℤ := (civilFromDays (isoMonday d + 3)).1

/-- ISO week number of the ISO week containing `d`
(`date.isocalendar()[1]`): 1-based index of the week's Thursday within
its civil year, counted in buckets of 7 days from Jan 1. -/
def isoWeekOf (d : ℤ) : ℤ :=
  let thursday := isoMonday d + 3
  let doy := thursday - daysFromCivil (isoYearOf d) 1 1 + 1
  (doy + 6) / 7

/-- Embedding of `utils.iso_week_period`: returns
`(iso_year, iso_week, monday, sunday)`. -/
def iso_week_period (d : ℤ) : ℤ × ℤ × ℤ × ℤ :=
  (isoYearOf d, isoWeekOf d, isoMonday d, isoMonday d + 6)

/-! Sanity checks of the calendar embedding on concrete dates (values
cross-checked against `datetime.date`). -/

lemma daysFromCivil_epoch : daysFromCivil 1970 1 1 = 0 := by decide

lemma isoWeekday_epoch : isoWeekday 0 = 4 := by decide

lemma civilFromDays_roundtrip_2024_01_29 :
    civilFromDays (daysFromCivil 2024 1 29) = (2024, 1, 29) := by decide

lemma civilFromDays_roundtrip_2024_02_01 :
    civilFromDays (daysFromCivil 2024 2 1) = (2024, 2, 1) := by decide

lemma isoWeekday_2024_01_29 : isoWeekday (daysFromCivil 2024 1 29) = 1 := by
  decide

lemma iso_week_period_2024_01_29 :
    iso_week_period (daysFromCivil 2024 1 29) =
      (2024, 5, daysFromCivil 2024 1 29, daysFromCivil 2024 2 4) := by decide

lemma iso_week_period_2021_01_01 :
    iso_week_period (daysFromCivil 2021 1 1) =
      (2020, 53, daysFromCivil 2020 12 28, daysFromCivil 2021 1 3) := by decide

/-! ## Workday calculator (`utils.workdays_in_range`, `utils.workday_range`) -/

/-- Embedding of `utils.workdays_in_range`: walk every day from
`start_date` to `end_date` inclusive; include the day if it is in the
`workdays` override set, otherwise if its ISO weekday is Mon–Fri and it
is not in the `holidays` set. -/
def workdays_in_range (start_date end_date : ℤ)
    (holidays workdays : List ℤ) : List ℤ :=
  if _h : start_date ≤ end_date then
    let rest := workdays_in_range (start_date + 1) end_date holidays workdays
    if start_date ∈ workdays then start_date :: rest
    else if isoWeekday start_date ≤ 5 ∧ start_date ∉ holidays then
      start_date :: rest
    else rest
  else []
termination_by (end_date + 1 - start_date).toNat
decreasing_by omega

/-- Embedding of `utils.workday_range`: `(days[0], days[-1], len(days))`
of the workday sequence, or `(None, None, 0)` when it is empty. -/
def workday_range (start_date end_date : ℤ)
    (holidays workdays : List ℤ) : Option ℤ × Option ℤ × ℕ :=
  match workdays_in_range start_date end_date holidays workdays with
  | [] => (none, none, 0)
  | d :: ds => (some d, some ((d :: ds).getLast (by simp)), (d :: ds).length)

lemma mem_workdays_in_range (n : ℕ) :
    ∀ s e : ℤ, (e + 1 - s).toNat = n → ∀ (hs ws : List ℤ) (d : ℤ),
      d ∈ workdays_in_range s e hs ws ↔
        s ≤ d ∧ d ≤ e ∧ (d ∈ ws ∨ (isoWeekday d ≤ 5 ∧ d ∉ hs)) := by
  induction n with
  | zero =>
    intro s e hn hs ws d
    have hse : ¬ s ≤ e := by omega
    rw [workdays_in_range, dif_neg hse]
    simp only [List.not_mem_nil, false_iff]
    omega
  | succ n ih =>
    intro s e hn hs ws d
    have hse : s ≤ e := by omega
    have hrest := ih (s + 1) e (by omega) hs ws d
    have hunfold : workdays_in_range s e hs ws =
        (if s ∈ ws then s :: workdays_in_range (s + 1) e hs ws
         else if isoWeekday s ≤ 5 ∧ s ∉ hs then
           s :: workdays_in_range (s + 1) e hs ws
         else workdays_in_range (s + 1) e hs ws) := by
      rw [workdays_in_range]
      simp only [dif_pos hse]
    rw [hunfold]
    by_cases hw : s ∈ ws
    · rw [if_pos hw]
      simp only [List.mem_cons, hrest]
      constructor
      · rintro (rfl | ⟨h1, h2, h3⟩)
        · exact ⟨le_refl _, hse, Or.inl hw⟩
        · exact ⟨by omega, h2, h3⟩
      · rintro ⟨h1, h2, h3⟩
        rcases eq_or_lt_of_le h1 with rfl | hlt
        · exact Or.inl rfl
        · exact Or.inr ⟨by omega, h2, h3⟩
    · rw [if_neg hw]
      by_cases hwd : isoWeekday s ≤ 5 ∧ s ∉ hs
      · rw [if_pos hwd]
        simp only [List.mem_cons, hrest]
        constructor
        · rintro (rfl | ⟨h1, h2, h3⟩)
          · exact ⟨le_refl _, hse, Or.inr hwd⟩
          · exact ⟨by omega, h2, h3⟩
        · rintro ⟨h1, h2, h3⟩
          rcases eq_or_lt_of_le h1 with rfl | hlt
          · exact Or.inl rfl
          · exact Or.inr ⟨by omega, h2, h3⟩
      · rw [if_neg hwd]
        rw [hrest]
        constructor
        · rintro ⟨h1, h2, h3⟩
          exact ⟨by omega, h2, h3⟩
        · rintro ⟨h1, h2, h3⟩
          refine ⟨?_, h2, h3⟩
          rcases eq_or_lt_of_le h1 with rfl | hlt
          · exfalso
            rcases h3 with h3 | h3
            · exact hw h3
            · exact hwd h3
          · omega

lemma sorted_workdays_in_range (n : ℕ) :
    ∀ s e : ℤ, (e + 1 - s).toNat = n → ∀ hs ws : List ℤ,
      (workdays_in_range s e hs ws).Sorted (· < ·) := by
  induction n with
  | zero =>
    intro s e hn hs ws
    rw [workdays_in_range, dif_neg (by omega)]
    exact List.sorted_nil
  | succ n ih =>
    intro s e hn hs ws
    have hse : s ≤ e := by omega
    have hrest := ih (s + 1) e (by omega) hs ws
    have hbound : ∀ d ∈ workdays_in_range (s + 1) e hs ws, s < d := by
      intro d hd
      have := (mem_workdays_in_range n (s + 1) e (by omega) hs ws d).mp hd
      omega
    have hunfold : workdays_in_range s e hs ws =
        (if s ∈ ws then s :: workdays_in_range (s + 1) e hs ws
         else if isoWeekday s ≤ 5 ∧ s ∉ hs then
           s :: workdays_in_range (s + 1) e hs ws
         else workdays_in_range (s + 1) e hs ws) := by
      rw [workdays_in_range]
      simp only [dif_pos hse]
    rw [hunfold]
    split
    · exact List.sorted_cons.mpr ⟨hbound, hrest⟩
    · split
      · exact List.sorted_cons.mpr ⟨hbound, hrest⟩
      · exact hrest

/-- C2: `workdays_in_range` returns exactly the days `d` in
`[start_date, end_date]`, in ascending order, such that `d` is in the
`workdays` override set, or else `d` is a Mon–Fri weekday not in the
`holidays` set; the `workdays` override beats both the holiday set and
the weekend rule, the weekday fallback being checked last. -/
theorem workdays_in_range_spec (s e : ℤ) (hs ws : List ℤ) :
    (workdays_in_range s e hs ws).Sorted (· < ·) ∧
      ∀ d : ℤ, d ∈ workdays_in_range s e hs ws ↔
        s ≤ d ∧ d ≤ e ∧ (d ∈ ws ∨ (isoWeekday d ≤ 5 ∧ d ∉ hs)) :=
  ⟨sorted_workdays_in_range (e + 1 - s).toNat s e rfl hs ws,
   fun d => mem_workdays_in_range (e + 1 - s).toNat s e rfl hs ws d⟩

/-- C9: `workday_range` returns the first and last elements of the
`workdays_in_range` sequence together with its length, and
`(none, none, 0)` when the sequence is empty. -/
theorem workday_range_spec (s e : ℤ) (hs ws : List ℤ) :
    workday_range s e hs ws =
      ((workdays_in_range s e hs ws).head?,
       (workdays_in_range s e hs ws).getLast?,
       (workdays_in_range s e hs ws).length) := by
  rw [workday_range]
  cases h : workdays_in_range s e hs ws with
  | nil => simp
  | cons d ds =>
    simp only [List.head?_cons, List.length_cons]
    rw [List.getLast?_eq_getLast]

/-! ## Data model (`app/models.py`)

Rows carry the columns that the verified operations read; the
`UniqueConstraint`s of `models.py` (`uq_year_weekno` on WeekPeriod) and
the primary keys become the `StoreInv` invariant below. -/

structure WeekPeriod where
  id : ℕ
  year : ℤ
  month : ℤ
  week_no : ℤ
  start_date : ℤ
  end_date : ℤ
deriving DecidableEq

structure WeeklyPlan where
  id : ℕ
  period_id : ℕ
  owner_user_id : ℕ
  status : String
deriving DecidableEq

structure PlanItemDetail where
  hours : Option ℚ
deriving DecidableEq

structure PlanItem where
  id : ℕ
  plan_id : ℕ
  estimated_hours : Option ℚ
  details : List PlanItemDetail
deriving DecidableEq

/-- The persisted tables; `next_period_id` models the autoincrement
primary-key counter of `week_period`. -/
structure Store where
  periods : List WeekPeriod
  plans : List WeeklyPlan
  items : List PlanItem
  next_period_id : ℕ
deriving DecidableEq

/-- Database constraints on `week_period`: primary keys are unique and
below the autoincrement counter, and the `uq_year_weekno` uniqueness
constraint holds. -/
def StoreInv (s : Store) : Prop :=
  (s.periods.map WeekPeriod.id).Nodup ∧
    (s.periods.map fun p => (p.year, p.week_no)).Nodup ∧
    ∀ p ∈ s.periods, p.id < s.next_period_id

instance (s : Store) : Decidable (StoreInv s) := by
  unfold StoreInv
  infer_instance

/-! ## Period registry (`crud.ensure_period`) -/

/-- The WHERE clause of the lookup in `ensure_period`:
`WeekPeriod.year == year AND WeekPeriod.week_no == week_no`. -/
def isPeriodFor (year week_no : ℤ) (p : WeekPeriod) : Bool :=
  decide (p.year = year ∧ p.week_no = week_no)

/-- Embedding of `crud.ensure_period`: derive the ISO week of
`for_date`; if a `week_period` row with that (year, week_no) exists,
recompute `month` from the Thursday anchor and correct the row in place
when it differs, then return it; otherwise insert a new row whose month
is the anchor month. -/
def ensure_period (s : Store) (for_date : ℤ) : Store × WeekPeriod :=
  let year := isoYearOf for_date
  let week_no := isoWeekOf for_date
  let start_date := isoMonday for_date
  match s.periods.find? (isPeriodFor year week_no) with
  | some existing =>
    let month := civilMonth (start_date + 3)
    if existing.month = month then (s, existing)
    else
      let corrected := { existing with month := month }
      ({ s with
          periods := s.periods.map fun q =>
            if q.id = existing.id then corrected else q },
       corrected)
  | none =>
    let period : WeekPeriod :=
      { id := s.next_period_id
        year := year
        month := civilMonth (start_date + 3)
        week_no := week_no
        start_date := start_date
        end_date := start_date + 6 }
    ({ s with
        periods := s.periods ++ [period]
        next_period_id := s.next_period_id + 1 },
     period)

lemma isPeriodFor_iff (year week_no : ℤ) (p : WeekPeriod) :
    isPeriodFor year week_no p = true ↔
      p.year = year ∧ p.week_no = week_no := by
  simp [isPeriodFor]

lemma find?_append_of_none {α : Type} (f : α → Bool) :
    ∀ l l2 : List α, l.find? f = none → (l ++ l2).find? f = l2.find? f := by
  intro l l2 h
  induction l with
  | nil => rfl
  | cons a t ih =>
    rw [List.cons_append]
    cases hfa : f a with
    | true =>
      rw [List.find?_cons_of_pos _ hfa] at h
      exact absurd h (by simp)
    | false =>
      rw [List.find?_cons_of_neg _ (by simp [hfa])] at h
      rw [List.find?_cons_of_neg _ (by simp [hfa])]
      exact ih h

lemma find?_map_update (year week_no : ℤ) :
    ∀ (l : List WeekPeriod) (p p' : WeekPeriod),
      l.find? (isPeriodFor year week_no) = some p →
      (l.map WeekPeriod.id).Nodup →
      p'.id = p.id →
      isPeriodFor year week_no p' = true →
      (l.map fun q => if q.id = p.id then p' else q).find?
          (isPeriodFor year week_no) = some p' := by
  intro l
  induction l with
  | nil =>
    intro p p' hfind _ _ _
    simp at hfind
  | cons a t ih =>
    intro p p' hfind hnd hid hkey
    rw [List.find?_cons] at hfind
    rw [List.map_cons, List.find?_cons]
    cases hfa : isPeriodFor year week_no a with
    | true =>
      rw [hfa] at hfind
      have ha : a = p := by simpa using hfind
      subst ha
      rw [if_pos rfl, hkey]
    | false =>
      rw [hfa] at hfind
      have hpmem : p ∈ t := List.mem_of_find?_eq_some hfind
      have haid : a.id ≠ p.id := by
        rw [List.map_cons] at hnd
        have := (List.nodup_cons.mp hnd).1
        intro hcontra
        exact this (hcontra ▸ List.mem_map_of_mem WeekPeriod.id hpmem)
      rw [if_neg haid, hfa]
      exact ih p p' hfind (List.nodup_cons.mp (List.map_cons WeekPeriod.id a t ▸ hnd)).2 hid hkey

lemma countP_key_unique (year week_no : ℤ) :
    ∀ (l : List WeekPeriod) (p : WeekPeriod),
      (l.map fun q => (q.year, q.week_no)).Nodup →
      p ∈ l → isPeriodFor year week_no p = true →
      l.countP (isPeriodFor year week_no) = 1 := by
  intro l
  induction l with
  | nil => intro p _ hp _; simp at hp
  | cons a t ih =>
    intro p hnd hp hkey
    rw [List.map_cons, List.nodup_cons] at hnd
    rw [List.countP_cons]
    rcases List.mem_cons.mp hp with rfl | hpt
    · have hzero : t.countP (isPeriodFor year week_no) = 0 := by
        rw [List.countP_eq_zero]
        intro q hq hqkey
        rcases (isPeriodFor_iff _ _ q).mp hqkey with ⟨hqy, hqw⟩
        rcases (isPeriodFor_iff _ _ p).mp hkey with ⟨hpy, hpw⟩
        exact hnd.1 (by
          rw [hpy, hpw, ← hqy, ← hqw]
          exact List.mem_map_of_mem _ hq)
      rw [hzero, hkey]
      simp
    · have hfa : isPeriodFor year week_no a = false := by
        cases hfa : isPeriodFor year week_no a with
        | false => rfl
        | true =>
          exfalso
          rcases (isPeriodFor_iff _ _ a).mp hfa with ⟨hay, haw⟩
          rcases (isPeriodFor_iff _ _ p).mp hkey with ⟨hpy, hpw⟩
          exact hnd.1 (by
            rw [hay, haw, ← hpy, ← hpw]
            exact List.mem_map_of_mem _ hpt)
      rw [hfa, ih p hnd.2 hpt hkey]
      simp

/-- The row inserted by the not-found branch of `ensure_period`. -/
def newPeriod (s : Store) (for_date : ℤ) : WeekPeriod :=
  { id := s.next_period_id
    year := isoYearOf for_date
    month := civilMonth (isoMonday for_date + 3)
    week_no := isoWeekOf for_date
    start_date := isoMonday for_date
    end_date := isoMonday for_date + 6 }

lemma isPeriodFor_month_irrelevant (year week_no m : ℤ) (p : WeekPeriod) :
    isPeriodFor year week_no { p with month := m } =
      isPeriodFor year week_no p := by
  simp [isPeriodFor]

lemma ensure_period_eq_found (s : Store) (d : ℤ) (p : WeekPeriod)
    (hfind : s.periods.find? (isPeriodFor (isoYearOf d) (isoWeekOf d)) =
      some p)
    (hm : p.month = civilMonth (isoMonday d + 3)) :
    ensure_period s d = (s, p) := by
  simp only [ensure_period, hfind, hm, if_pos]

lemma ensure_period_eq_found_update (s : Store) (d : ℤ) (p : WeekPeriod)
    (hfind : s.periods.find? (isPeriodFor (isoYearOf d) (isoWeekOf d)) =
      some p)
    (hm : p.month ≠ civilMonth (isoMonday d + 3)) :
    ensure_period s d =
      ({ s with
          periods := s.periods.map fun q =>
            if q.id = p.id then
              { p with month := civilMonth (isoMonday d + 3) }
            else q },
       { p with month := civilMonth (isoMonday d + 3) }) := by
  simp only [ensure_period, hfind, hm, if_neg, if_false]

lemma ensure_period_eq_insert (s : Store) (d : ℤ)
    (hfind : s.periods.find? (isPeriodFor (isoYearOf d) (isoWeekOf d)) =
      none) :
    ensure_period s d =
      ({ s with
          periods := s.periods ++ [newPeriod s d]
          next_period_id := s.next_period_id + 1 },
       newPeriod s d) := by
  simp only [ensure_period, hfind, newPeriod]

/-- C4: the period returned by `ensure_period` has `month` equal to the
calendar month of the ISO week's Monday plus 3 days (its Thursday), in
both the found branch (an existing row with a stale month is corrected
in place before being returned) and the create branch; the returned row
is persisted in the resulting store. -/
theorem ensure_period_month_anchor (s : Store) (d : ℤ) :
    (ensure_period s d).2.month = civilMonth (isoMonday d + 3) ∧
      (ensure_period s d).2 ∈ (ensure_period s d).1.periods := by
  cases hfind : s.periods.find? (isPeriodFor (isoYearOf d) (isoWeekOf d)) with
  | some p =>
    by_cases hm : p.month = civilMonth (isoMonday d + 3)
    · rw [ensure_period_eq_found s d p hfind hm]
      exact ⟨hm, List.mem_of_find?_eq_some hfind⟩
    · rw [ensure_period_eq_found_update s d p hfind hm]
      refine ⟨rfl, ?_⟩
      have hpm := List.mem_of_find?_eq_some hfind
      refine List.mem_map.mpr ⟨p, hpm, ?_⟩
      simp
  | none =>
    rw [ensure_period_eq_insert s d hfind]
    exact ⟨rfl, by simp⟩

lemma countP_congr_mem {α : Type} (p q : α → Bool) :
    ∀ l : List α, (∀ a ∈ l, p a = q a) → l.countP p = l.countP q := by
  intro l
  induction l with
  | nil => intro _; rfl
  | cons a t ih =>
    intro h
    rw [List.countP_cons, List.countP_cons, h a (by simp),
      ih fun b hb => h b (by simp [hb])]


/-- C3: with the database constraints in force, calling `ensure_period`
twice for the same date is idempotent — the second call returns exactly
the state and period of the first (same period id, no new row) — the
constraints are preserved, and the resulting store holds exactly one row
for the date's (ISO year, ISO week). -/
theorem ensure_period_idempotent (s : Store) (d : ℤ) (hinv : StoreInv s) :
    ensure_period (ensure_period s d).1 d = ensure_period s d ∧
      StoreInv (ensure_period s d).1 ∧
      (ensure_period s d).1.periods.countP
        (isPeriodFor (isoYearOf d) (isoWeekOf d)) = 1 := by
  obtain ⟨hids, hkeys, hlt⟩ := hinv
  cases hfind : s.periods.find? (isPeriodFor (isoYearOf d) (isoWeekOf d)) with
  | some p =>
    have hkey : isPeriodFor (isoYearOf d) (isoWeekOf d) p = true :=
      List.find?_some hfind
    have hmem : p ∈ s.periods := List.mem_of_find?_eq_some hfind
    by_cases hm : p.month = civilMonth (isoMonday d + 3)
    · rw [ensure_period_eq_found s d p hfind hm]
      exact ⟨ensure_period_eq_found s d p hfind hm, ⟨hids, hkeys, hlt⟩,
        countP_key_unique _ _ s.periods p hkeys hmem hkey⟩
    · rw [ensure_period_eq_found_update s d p hfind hm]
      have hkey' : isPeriodFor (isoYearOf d) (isoWeekOf d)
          { p with month := civilMonth (isoMonday d + 3) } = true := by
        rw [isPeriodFor_month_irrelevant]
        exact hkey
      have hfind' :
          (s.periods.map fun q =>
              if q.id = p.id then
                { p with month := civilMonth (isoMonday d + 3) }
              else q).find?
            (isPeriodFor (isoYearOf d) (isoWeekOf d)) =
          some { p with month := civilMonth (isoMonday d + 3) } :=
        find?_map_update _ _ s.periods p _ hfind hids rfl hkey'
      have hinj := List.inj_on_of_nodup_map hids
      have hpoint : ∀ q ∈ s.periods,
          (if q.id = p.id then
            { p with month := civilMonth (isoMonday d + 3) }
          else q).id = q.id := by
        intro q _
        by_cases hq : q.id = p.id
        · rw [if_pos hq]
          exact hq.symm
        · rw [if_neg hq]
      refine ⟨?_, ⟨?_, ?_, ?_⟩, ?_⟩
      · exact ensure_period_eq_found _ d _ hfind' rfl
      · dsimp only
        rw [List.map_map]
        have heq : (s.periods.map fun q => WeekPeriod.id
            (if q.id = p.id then
              { p with month := civilMonth (isoMonday d + 3) }
            else q)) = s.periods.map WeekPeriod.id :=
          List.map_congr_left hpoint
        rw [show (WeekPeriod.id ∘ fun q =>
            if q.id = p.id then
              { p with month := civilMonth (isoMonday d + 3) }
            else q) = fun q => WeekPeriod.id
            (if q.id = p.id then
              { p with month := civilMonth (isoMonday d + 3) }
            else q) from rfl]
        rw [heq]
        exact hids
      · dsimp only
        rw [List.map_map]
        have heq : (s.periods.map fun q => (fun r => (r.year, r.week_no))
            (if q.id = p.id then
              { p with month := civilMonth (isoMonday d + 3) }
            else q)) = s.periods.map fun r => (r.year, r.week_no) := by
          apply List.map_congr_left
          intro q hq
          by_cases hqp : q.id = p.id
          · have hq_eq_p : q = p := hinj hq hmem hqp
            rw [if_pos hqp, hq_eq_p]
          · rw [if_neg hqp]
        rw [show ((fun r : WeekPeriod => (r.year, r.week_no)) ∘ fun q =>
            if q.id = p.id then
              { p with month := civilMonth (isoMonday d + 3) }
            else q) = fun q => (fun r : WeekPeriod => (r.year, r.week_no))
            (if q.id = p.id then
              { p with month := civilMonth (isoMonday d + 3) }
            else q) from rfl]
        rw [heq]
        exact hkeys
      · dsimp only
        intro q' hq'
        rcases List.mem_map.mp hq' with ⟨q, hq, rfl⟩
        rw [hpoint q hq]
        exact hlt q hq
      · dsimp only
        rw [List.countP_map]
        have heq : s.periods.countP
            ((isPeriodFor (isoYearOf d) (isoWeekOf d)) ∘ fun q =>
              if q.id = p.id then
                { p with month := civilMonth (isoMonday d + 3) }
              else q) = s.periods.countP
            (isPeriodFor (isoYearOf d) (isoWeekOf d)) := by
          apply countP_congr_mem
          intro q hq
          by_cases hqp : q.id = p.id
          · have hq_eq_p : q = p := hinj hq hmem hqp
            simp only [Function.comp_apply, if_pos hqp]
            rw [hkey', hq_eq_p, hkey]
          · simp only [Function.comp_apply, if_neg hqp]
        rw [heq]
        exact countP_key_unique _ _ s.periods p hkeys hmem hkey
  | none =>
    rw [ensure_period_eq_insert s d hfind]
    have hnotkeys := List.find?_eq_none.mp hfind
    have hkeynew : isPeriodFor (isoYearOf d) (isoWeekOf d)
        (newPeriod s d) = true := by
      simp [isPeriodFor, newPeriod]
    have hfind' : ((s.periods ++ [newPeriod s d]).find?
        (isPeriodFor (isoYearOf d) (isoWeekOf d))) = some (newPeriod s d) := by
      rw [find?_append_of_none _ s.periods [newPeriod s d] hfind]
      rw [List.find?_cons_of_pos _ hkeynew]
    refine ⟨?_, ⟨?_, ?_, ?_⟩, ?_⟩
    · exact ensure_period_eq_found _ d _ hfind' rfl
    · dsimp only
      rw [List.map_append]
      refine List.Nodup.append hids (by simp) ?_
      intro x hx hx'
      simp only [List.map_cons, List.map_nil, List.mem_singleton] at hx'
      rcases List.mem_map.mp hx with ⟨q, hq, rfl⟩
      have := hlt q hq
      simp only [newPeriod] at hx'
      omega
    · dsimp only
      rw [List.map_append]
      refine List.Nodup.append hkeys (by simp) ?_
      intro x hx hx'
      simp only [List.map_cons, List.map_nil, List.mem_singleton] at hx'
      rcases List.mem_map.mp hx with ⟨q, hq, rfl⟩
      have hnq := hnotkeys q hq
      rw [isPeriodFor_iff] at hnq
      simp only [newPeriod] at hx'
      rw [Prod.mk.injEq] at hx'
      exact hnq hx'
    · dsimp only
      intro q hq
      rcases List.mem_append.mp hq with hq | hq
      · have := hlt q hq
        omega
      · simp only [List.mem_singleton] at hq
        rw [hq]
        simp [newPeriod]
    · dsimp only
      rw [List.countP_append]
      have hz : s.periods.countP (isPeriodFor (isoYearOf d) (isoWeekOf d))
          = 0 := by
        rw [List.countP_eq_zero]
        exact hnotkeys
      rw [hz, List.countP_cons]
      simp [hkeynew]

theorem ensure_period_idempotent_witness :
    StoreInv ⟨[], [], [], 1⟩ ∧
      (ensure_period (ensure_period ⟨[], [], [], 1⟩
            (daysFromCivil 2024 1 29)).1 (daysFromCivil 2024 1 29) =
          ensure_period ⟨[], [], [], 1⟩ (daysFromCivil 2024 1 29) ∧
        StoreInv (ensure_period ⟨[], [], [], 1⟩ (daysFromCivil 2024 1 29)).1 ∧
        (ensure_period ⟨[], [], [], 1⟩
            (daysFromCivil 2024 1 29)).1.periods.countP
          (isPeriodFor (isoYearOf (daysFromCivil 2024 1 29))
            (isoWeekOf (daysFromCivil 2024 1 29))) = 1) :=
  ⟨by decide,
   ensure_period_idempotent ⟨[], [], [], 1⟩ (daysFromCivil 2024 1 29)
     (by decide)⟩

/-- `ensure_period` runs SELECT-then-INSERT.  In the duplicate-creation
race another writer commits a row for the same (year, week_no) between
this transaction's lookup and its INSERT commit; the `uq_year_weekno`
uniqueness constraint then rejects the INSERT.  This embedding makes the
interleaving explicit: `concurrent` is the list of rows committed by
other writers after the lookup ran, and the INSERT raises
`IntegrityError` exactly when the committed table already holds a row
with the new row's key.  The source wraps `db.add(period); db.commit()`
in no try/except (the only `IntegrityError` handler in `crud.py` sits in
`_migrate_dept_to_team`), so the error propagates out of the embedded
function instead of being recovered by a re-query. -/
def ensure_period_racing (s : Store) (concurrent : List WeekPeriod)
    (for_date : ℤ) : Except String (Store × WeekPeriod) :=
  let year := isoYearOf for_date
  let week_no := isoWeekOf for_date
  let start_date := isoMonday for_date
  match s.periods.find? (isPeriodFor year week_no) with
  | some existing =>
    let month := civilMonth (start_date + 3)
    if existing.month = month then
      .ok ({ s with periods := s.periods ++ concurrent }, existing)
    else
      let corrected := { existing with month := month }
      .ok ({ s with
              periods := (s.periods.map fun q =>
                if q.id = existing.id then corrected else q) ++ concurrent },
           corrected)
  | none =>
    if (s.periods ++ concurrent).countP (isPeriodFor year week_no) ≠ 0 then
      .error "UNIQUE constraint failed: week_period.year, week_period.week_no"
    else
      .ok ({ s with
              periods := s.periods ++ concurrent ++ [newPeriod s for_date]
              next_period_id := s.next_period_id + 1 },
           newPeriod s for_date)

/-- Without a concurrent writer the race-exposed embedding agrees with
the sequential `ensure_period`. -/
lemma ensure_period_racing_no_race (s : Store) (d : ℤ) :
    ensure_period_racing s [] d = Except.ok (ensure_period s d) := by
  cases hfind : s.periods.find? (isPeriodFor (isoYearOf d) (isoWeekOf d)) with
  | some p =>
    by_cases hm : p.month = civilMonth (isoMonday d + 3)
    · rw [ensure_period_eq_found s d p hfind hm]
      simp only [ensure_period_racing, hfind, hm, if_pos, List.append_nil]
    · rw [ensure_period_eq_found_update s d p hfind hm]
      simp only [ensure_period_racing, hfind, if_neg hm, List.append_nil]
  | none =>
    rw [ensure_period_eq_insert s d hfind]
    have hz : ¬ (s.periods.countP
        (isPeriodFor (isoYearOf d) (isoWeekOf d)) ≠ 0) := by
      simp only [ne_eq, not_not]
      rw [List.countP_eq_zero]
      exact List.find?_eq_none.mp hfind
    simp only [ensure_period_racing, hfind, List.append_nil, if_neg hz]

/-- The conflicting row committed by the concurrent writer in the C6
scenario: the (2024, W5) period. -/
def racePeriodRow : WeekPeriod :=
  ⟨1, 2024, 2, 5, daysFromCivil 2024 1 29, daysFromCivil 2024 2 4⟩

/-- The store holding no rows at all, with the autoincrement counter at
its initial value. -/
def emptyStore : Store := ⟨[], [], [], 1⟩

/-- C6 (amended): when the lookup found no row but the committed table
holds a conflicting (year, week_no) row at INSERT time — the
duplicate-creation race — `ensure_period` has no handler and the
uniqueness-constraint error propagates to the caller; no re-query
happens. -/
theorem ensure_period_race_propagates (s : Store)
    (concurrent : List WeekPeriod) (d : ℤ)
    (hfind : s.periods.find? (isPeriodFor (isoYearOf d) (isoWeekOf d)) =
      none)
    (hconf : (s.periods ++ concurrent).countP
      (isPeriodFor (isoYearOf d) (isoWeekOf d)) ≠ 0) :
    ensure_period_racing s concurrent d =
      Except.error
        "UNIQUE constraint failed: week_period.year, week_period.week_no" := by
  simp only [ensure_period_racing, hfind, if_pos hconf]

theorem ensure_period_race_propagates_witness :
    (emptyStore.periods.find?
        (isPeriodFor (isoYearOf (daysFromCivil 2024 1 29))
          (isoWeekOf (daysFromCivil 2024 1 29))) = none) ∧
      ((emptyStore.periods ++ [racePeriodRow]).countP
        (isPeriodFor (isoYearOf (daysFromCivil 2024 1 29))
          (isoWeekOf (daysFromCivil 2024 1 29))) ≠ 0) ∧
      ensure_period_racing emptyStore [racePeriodRow]
          (daysFromCivil 2024 1 29) =
        Except.error
          "UNIQUE constraint failed: week_period.year, week_period.week_no" :=
  ⟨by decide, by decide,
   ensure_period_race_propagates emptyStore [racePeriodRow]
     (daysFromCivil 2024 1 29) (by decide) (by decide)⟩

/-- C6 (counterexample to the claim as stated): in the concrete
duplicate-creation race — empty store at lookup time, a concurrent
writer having committed the (2024, W5) row before this transaction's
INSERT — `ensure_period` surfaces the uniqueness-constraint error to the
caller instead of recovering by re-querying. -/
theorem ensure_period_race_error_surfaces :
    ensure_period_racing emptyStore [racePeriodRow]
        (daysFromCivil 2024 1 29) =
      Except.error
        "UNIQUE constraint failed: week_period.year, week_period.week_no" :=
  rfl

/-! ## Plan aggregation engine
(`crud.sum_plan_hours`, `crud.get_plan_item_stats`) -/

/-- Floor of a rational. -/
def ratFloor (q : ℚ) : ℤ := ⌊q⌋

lemma ratFloor_eq (q : ℚ) (n : ℤ) (h1 : (n : ℚ) ≤ q) (h2 : q < n + 1) :
    ratFloor q = n := Int.floor_eq_iff.mpr ⟨h1, h2⟩

/-- Round a rational to the nearest integer, ties to the even integer —
the tie behaviour documented for Python's builtin `round`. -/
def roundHalfEven (q : ℚ) : ℤ :=
  let n := ratFloor q
  let r := q - (n : ℚ)
  if r < 1 / 2 then n
  else if 1 / 2 < r then n + 1
  else if n % 2 = 0 then n else n + 1

/-- Embedding of Python's `round(x, 1)` on the exact rational value:
nearest multiple of 1/10, ties to the even tenth. -/
def pyRound1 (q : ℚ) : ℚ := ((roundHalfEven (q * 10) : ℤ) : ℚ) / 10

lemma pyRound1_3_05 : pyRound1 (61 / 20) = 3 := by
  have hq : (61 / 20 : ℚ) * 10 = 61 / 2 := by norm_num
  have hf : ratFloor (61 / 2) = 30 :=
    ratFloor_eq _ 30 (by norm_num) (by norm_num)
  rw [pyRound1, hq, roundHalfEven]
  simp only [hf]
  rw [if_neg (by norm_num), if_neg (by norm_num), if_pos (by decide)]
  norm_num

lemma pyRound1_zero : pyRound1 0 = 0 := by
  have hf : ratFloor (0 * 10) = 0 := ratFloor_eq _ 0 (by norm_num) (by norm_num)
  rw [pyRound1, roundHalfEven]
  simp only [hf]
  rw [if_pos (by norm_num)]
  norm_num

lemma pyRound1_1_25 : pyRound1 (5 / 4) = 6 / 5 := by
  have hq : (5 / 4 : ℚ) * 10 = 25 / 2 := by norm_num
  have hf : ratFloor (25 / 2) = 12 :=
    ratFloor_eq _ 12 (by norm_num) (by norm_num)
  rw [pyRound1, hq, roundHalfEven]
  simp only [hf]
  rw [if_neg (by norm_num), if_neg (by norm_num), if_pos (by decide)]
  norm_num

/-- Half-up rounding to one decimal, as the spec words it ("half-up
rounding consistent with display precision of 0.1 hours"); stated for
comparison with `pyRound1`, which is what the code computes. -/
def specHalfUpRound1 (q : ℚ) : ℚ := ((ratFloor (q * 10 + 1 / 2) : ℤ) : ℚ) / 10

lemma specHalfUpRound1_3_05 : specHalfUpRound1 (61 / 20) = 31 / 10 := by
  have hq : (61 / 20 : ℚ) * 10 + 1 / 2 = 31 := by norm_num
  have hf : ratFloor 31 = 31 := ratFloor_eq _ 31 (by norm_num) (by norm_num)
  rw [specHalfUpRound1, hq, hf]
  norm_num

/-- Association-list lookup, the embedding of a Python dict keyed by
ints (first binding wins; the accumulation below keeps keys unique). -/
def alookup {β : Type} (l : List (ℕ × β)) (k : ℕ) : Option β :=
  match l with
  | [] => none
  | (k', v) :: rest => if k' = k then some v else alookup rest k

/-- The rows of `plan_item` belonging to a plan: the SQLAlchemy
relationship `WeeklyPlan.items` / the query
`PlanItem.plan_id.in_(plan_ids)` restricted to one plan. -/
def plan_items (s : Store) (plan_id : ℕ) : List PlanItem :=
  s.items.filter fun it => it.plan_id == plan_id

/-- Embedding of `crud.get_plan`: `db.get(models.WeeklyPlan, plan_id)`,
`None` when no row has that primary key. -/
def get_plan (s : Store) (plan_id : ℕ) : Option WeeklyPlan :=
  s.plans.find? fun p => p.id == plan_id

/-- Embedding of `crud.sum_plan_hours`: 0.0 for an unknown plan id;
otherwise fold over the plan's items, adding every non-null detail hour
when the item has details and `estimated_hours or 0` when it has none. -/
def sum_plan_hours (s : Store) (plan_id : ℕ) : ℚ :=
  match get_plan s plan_id with
  | none => 0
  | some plan =>
    (plan_items s plan.id).foldl
      (fun total it =>
        if it.details ≠ [] then
          it.details.foldl
            (fun t dtl =>
              match dtl.hours with
              | none => t
              | some h => t + h)
            total
        else total + it.estimated_hours.getD 0)
      0

/-- One entry of the `get_plan_item_stats` result dict. -/
structure Stats where
  estimated : ℚ
  actual : ℚ
  items : ℕ
deriving DecidableEq

/-- The per-item `actual` accumulator of `get_plan_item_stats`: sum of
the non-null detail hours when the item has details, else
`estimated_hours or 0`. -/
def item_actual_in_stats (it : PlanItem) : ℚ :=
  if it.details ≠ [] then
    it.details.foldl
      (fun t dtl =>
        match dtl.hours with
        | none => t
        | some h => t + h)
      0
  else it.estimated_hours.getD 0

/-- One loop iteration of `get_plan_item_stats`:
`s["estimated"] += est; s["actual"] += actual; s["items"] += 1`. -/
def bumpStats (v : Stats) (it : PlanItem) : Stats :=
  { estimated := v.estimated + it.estimated_hours.getD 0
    actual := v.actual + item_actual_in_stats it
    items := v.items + 1 }

/-- `stats.setdefault(it.plan_id, zero)` followed by the in-place
update, on the association-list embedding of the dict. -/
def updateEntry (acc : List (ℕ × Stats)) (it : PlanItem) :
    List (ℕ × Stats) :=
  match acc with
  | [] => [(it.plan_id, bumpStats ⟨0, 0, 0⟩ it)]
  | (k, v) :: rest =>
    if k = it.plan_id then (k, bumpStats v it) :: rest
    else (k, v) :: updateEntry rest it

/-- The dict comprehension
`{pid: {"estimated": 0.0, "actual": 0.0, "items": 0} for pid in plan_ids}`:
one zero entry per distinct requested id, in first-occurrence order. -/
def seedStats (plan_ids : List ℕ) : List (ℕ × Stats) :=
  plan_ids.foldl
    (fun acc pid =>
      if (alookup acc pid).isSome then acc else acc ++ [(pid, ⟨0, 0, 0⟩)])
    []

/-- Embedding of `crud.get_plan_item_stats`: `{}` for an empty id list;
otherwise seed a zero entry per requested id, accumulate every
`plan_item` row whose `plan_id` is among the requested ids, and finally
round the `estimated` and `actual` fields of every entry with
`round(·, 1)`. -/
def get_plan_item_stats (s : Store) (plan_ids : List ℕ) :
    List (ℕ × Stats) :=
  if plan_ids = [] then []
  else
    ((s.items.filter fun it => plan_ids.contains it.plan_id).foldl
        updateEntry (seedStats plan_ids)).map fun e =>
      (e.1, ⟨pyRound1 e.2.estimated, pyRound1 e.2.actual, e.2.items⟩)

/-! ### Association-list lemmas for the stats dict -/

lemma alookup_mem {β : Type} :
    ∀ (l : List (ℕ × β)) (k : ℕ) (v : β), alookup l k = some v → (k, v) ∈ l := by
  intro l
  induction l with
  | nil => intro k v h; simp [alookup] at h
  | cons e rest ih =>
    intro k v h
    obtain ⟨k', v'⟩ := e
    rw [alookup] at h
    by_cases hk : k' = k
    · rw [if_pos hk] at h
      rcases Option.some.injEq .. ▸ h with rfl
      subst hk
      exact List.mem_cons_self _ _
    · rw [if_neg hk] at h
      exact List.mem_cons_of_mem _ (ih k v h)

lemma alookup_append_of_some {β : Type} :
    ∀ (l1 l2 : List (ℕ × β)) (k : ℕ) (v : β),
      alookup l1 k = some v → alookup (l1 ++ l2) k = some v := by
  intro l1
  induction l1 with
  | nil => intro l2 k v h; simp [alookup] at h
  | cons e rest ih =>
    intro l2 k v h
    obtain ⟨k', v'⟩ := e
    rw [alookup] at h
    rw [List.cons_append, alookup]
    by_cases hk : k' = k
    · rw [if_pos hk] at h ⊢
      exact h
    · rw [if_neg hk] at h ⊢
      exact ih l2 k v h

lemma alookup_append_of_none {β : Type} :
    ∀ (l1 l2 : List (ℕ × β)) (k : ℕ),
      alookup l1 k = none → alookup (l1 ++ l2) k = alookup l2 k := by
  intro l1
  induction l1 with
  | nil => intro l2 k _; rfl
  | cons e rest ih =>
    intro l2 k h
    obtain ⟨k', v'⟩ := e
    rw [alookup] at h
    rw [List.cons_append, alookup]
    by_cases hk : k' = k
    · rw [if_pos hk] at h
      exact absurd h (by simp)
    · rw [if_neg hk] at h ⊢
      exact ih l2 k h

lemma alookup_map_values {β γ : Type} (g : β → γ) :
    ∀ (l : List (ℕ × β)) (k : ℕ),
      alookup (l.map fun e => (e.1, g e.2)) k = (alookup l k).map g := by
  intro l
  induction l with
  | nil => intro k; rfl
  | cons e rest ih =>
    intro k
    obtain ⟨k', v'⟩ := e
    rw [List.map_cons, alookup, alookup]
    by_cases hk : k' = k
    · rw [if_pos hk, if_pos hk]
      rfl
    · rw [if_neg hk, if_neg hk]
      exact ih k

lemma seed_fold_lookup :
    ∀ (pids : List ℕ) (acc : List (ℕ × Stats)),
      (∀ e ∈ acc, e.2 = (⟨0, 0, 0⟩ : Stats)) → ∀ pid : ℕ,
      (pid ∈ pids ∨ (alookup acc pid).isSome) →
      alookup
        (pids.foldl
          (fun a p =>
            if (alookup a p).isSome then a else a ++ [(p, ⟨0, 0, 0⟩)])
          acc) pid = some ⟨0, 0, 0⟩ := by
  intro pids
  induction pids with
  | nil =>
    intro acc hall pid hcond
    rcases hcond with h | h
    · simp at h
    · rw [List.foldl_nil]
      cases hv : alookup acc pid with
      | none => rw [hv] at h; simp at h
      | some v =>
        exact congrArg some (hall (pid, v) (alookup_mem acc pid v hv))
  | cons p rest ih =>
    intro acc hall pid hcond
    rw [List.foldl_cons]
    by_cases hp : (alookup acc p).isSome
    · rw [if_pos hp]
      apply ih acc hall pid
      rcases hcond with h | h
      · rcases List.mem_cons.mp h with rfl | h
        · exact Or.inr hp
        · exact Or.inl h
      · exact Or.inr h
    · rw [if_neg hp]
      have hall' : ∀ e ∈ acc ++ [(p, (⟨0, 0, 0⟩ : Stats))],
          e.2 = (⟨0, 0, 0⟩ : Stats) := by
        intro e he
        rcases List.mem_append.mp he with he | he
        · exact hall e he
        · simp only [List.mem_singleton] at he
          rw [he]
      apply ih _ hall' pid
      rcases hcond with h | h
      · rcases List.mem_cons.mp h with rfl | h
        · refine Or.inr ?_
          have hnone : alookup acc pid = none := by
            cases hv : alookup acc pid with
            | none => rfl
            | some v => rw [hv] at hp; simp at hp
          rw [alookup_append_of_none acc _ pid hnone]
          simp [alookup]
        · exact Or.inl h
      · refine Or.inr ?_
        cases hv : alookup acc pid with
        | none => rw [hv] at h; simp at h
        | some v =>
          rw [alookup_append_of_some acc _ pid v hv]
          rfl

lemma alookup_seedStats (pids : List ℕ) (pid : ℕ) (h : pid ∈ pids) :
    alookup (seedStats pids) pid = some ⟨0, 0, 0⟩ :=
  seed_fold_lookup pids [] (by simp) pid (Or.inl h)

lemma alookup_updateEntry :
    ∀ (acc : List (ℕ × Stats)) (it : PlanItem) (pid : ℕ),
      alookup (updateEntry acc it) pid =
        if it.plan_id = pid then
          some (bumpStats ((alookup acc pid).getD ⟨0, 0, 0⟩) it)
        else alookup acc pid := by
  intro acc
  induction acc with
  | nil =>
    intro it pid
    by_cases h : it.plan_id = pid <;>
      simp [updateEntry, alookup, h]
  | cons e rest ih =>
    intro it pid
    obtain ⟨k, v⟩ := e
    rw [updateEntry]
    by_cases h1 : k = it.plan_id
    · rw [if_pos h1]
      by_cases h2 : k = pid
      · rw [alookup, if_pos h2, alookup, if_pos h2,
          if_pos (h1 ▸ h2 : it.plan_id = pid)]
        rfl
      · rw [alookup, if_neg h2, alookup, if_neg h2,
          if_neg (h1 ▸ h2 : ¬ it.plan_id = pid)]
    · rw [if_neg h1]
      by_cases h2 : k = pid
      · rw [alookup, if_pos h2, alookup, if_pos h2,
          if_neg (fun hc => h1 (h2.trans hc.symm))]
      · rw [alookup, if_neg h2, alookup, if_neg h2]
        exact ih it pid

lemma alookup_foldl_updateEntry :
    ∀ (rows : List PlanItem) (acc : List (ℕ × Stats)) (pid : ℕ) (v : Stats),
      alookup acc pid = some v →
      alookup (rows.foldl updateEntry acc) pid =
        some ((rows.filter fun it => it.plan_id == pid).foldl bumpStats v) := by
  intro rows
  induction rows with
  | nil =>
    intro acc pid v hv
    rw [List.foldl_nil, List.filter_nil, List.foldl_nil]
    exact hv
  | cons it rest ih =>
    intro acc pid v hv
    rw [List.foldl_cons, List.filter_cons]
    by_cases h : it.plan_id = pid
    · have hbeq : (it.plan_id == pid) = true := beq_iff_eq.mpr h
      rw [hbeq]
      simp only [if_true]
      rw [List.foldl_cons]
      apply ih
      rw [alookup_updateEntry, if_pos h, hv]
      rfl
    · have hbeq : (it.plan_id == pid) = false := beq_eq_false_iff_ne.mpr h
      rw [hbeq]
      simp only [Bool.false_eq_true, if_false]
      apply ih
      rw [alookup_updateEntry, if_neg h]
      exact hv

lemma foldl_bumpStats :
    ∀ (l : List PlanItem) (v : Stats),
      l.foldl bumpStats v =
        ⟨v.estimated + (l.map fun it => it.estimated_hours.getD 0).sum,
         v.actual + (l.map item_actual_in_stats).sum,
         v.items + l.length⟩ := by
  intro l
  induction l with
  | nil =>
    intro v
    simp
  | cons it rest ih =>
    intro v
    rw [List.foldl_cons, ih]
    simp only [bumpStats, List.map_cons, List.sum_cons, List.length_cons]
    congr 1
    · exact add_assoc ..
    · exact add_assoc ..
    · omega

lemma filter_requested_restrict (pids : List ℕ) (pid : ℕ) (h : pid ∈ pids) :
    ∀ l : List PlanItem,
      ((l.filter fun it => pids.contains it.plan_id).filter
        fun it => it.plan_id == pid) = l.filter fun it => it.plan_id == pid := by
  intro l
  induction l with
  | nil => rfl
  | cons it rest ih =>
    rw [List.filter_cons, List.filter_cons]
    by_cases hc : pids.contains it.plan_id
    · rw [hc]
      simp only [if_true]
      rw [List.filter_cons]
      by_cases hp : (it.plan_id == pid) = true
      · rw [hp]
        simp only [if_true, ih]
      · rw [Bool.not_eq_true] at hp
        rw [hp]
        simp only [Bool.false_eq_true, if_false, ih]
    · rw [Bool.not_eq_true] at hc
      rw [hc]
      simp only [Bool.false_eq_true, if_false, ih]
      have hp : (it.plan_id == pid) = false := by
        rw [beq_eq_false_iff_ne]
        intro hcontra
        rw [hcontra] at hc
        simp at hc
        exact hc h
      rw [hp]
      simp

lemma alookup_map_round :
    ∀ (l : List (ℕ × Stats)) (k : ℕ),
      alookup (l.map fun e =>
          (e.1,
           (⟨pyRound1 e.2.estimated, pyRound1 e.2.actual, e.2.items⟩ : Stats)))
        k =
      (alookup l k).map fun v =>
        (⟨pyRound1 v.estimated, pyRound1 v.actual, v.items⟩ : Stats) := by
  intro l
  induction l with
  | nil => intro k; rfl
  | cons e rest ih =>
    intro k
    obtain ⟨k', v'⟩ := e
    rw [List.map_cons, alookup, alookup]
    by_cases hk : k' = k
    · rw [if_pos hk, if_pos hk]
      rfl
    · rw [if_neg hk, if_neg hk]
      exact ih k

/-- The entry of `get_plan_item_stats s pids` for a requested id `pid`:
the rounded sums of `estimated_hours or 0` and `itemActualHours` over
the plan's items, together with the item count. -/
lemma get_plan_item_stats_entry (s : Store) (pids : List ℕ) (pid : ℕ)
    (hne : pids ≠ []) (hmem : pid ∈ pids) :
    alookup (get_plan_item_stats s pids) pid =
      some ⟨pyRound1
              ((plan_items s pid).map fun it => it.estimated_hours.getD 0).sum,
            pyRound1 ((plan_items s pid).map item_actual_in_stats).sum,
            (plan_items s pid).length⟩ := by
  rw [get_plan_item_stats, if_neg hne]
  rw [alookup_map_round]
  rw [alookup_foldl_updateEntry _ _ _ _ (alookup_seedStats pids pid hmem)]
  rw [filter_requested_restrict pids pid hmem s.items]
  rw [show (s.items.filter fun it => it.plan_id == pid) = plan_items s pid
    from rfl]
  rw [foldl_bumpStats]
  simp

lemma detail_foldl_shift :
    ∀ (ds : List PlanItemDetail) (t : ℚ),
      ds.foldl
          (fun t dtl =>
            match dtl.hours with
            | none => t
            | some h => t + h)
          t =
        t + ds.foldl
          (fun t dtl =>
            match dtl.hours with
            | none => t
            | some h => t + h)
          0 := by
  intro ds
  induction ds with
  | nil => intro t; simp
  | cons dtl rest ih =>
    intro t
    rw [List.foldl_cons, List.foldl_cons, ih, ih (match dtl.hours with
      | none => (0 : ℚ)
      | some h => 0 + h)]
    cases dtl.hours with
    | none => simp
    | some h => simp [add_assoc]

lemma item_foldl_shift :
    ∀ (l : List PlanItem) (t : ℚ),
      l.foldl
          (fun total it =>
            if it.details ≠ [] then
              it.details.foldl
                (fun t dtl =>
                  match dtl.hours with
                  | none => t
                  | some h => t + h)
                total
            else total + it.estimated_hours.getD 0)
          t =
        t + (l.map item_actual_in_stats).sum := by
  intro l
  induction l with
  | nil => intro t; simp
  | cons it rest ih =>
    intro t
    rw [List.foldl_cons, ih, List.map_cons, List.sum_cons]
    by_cases hd : it.details ≠ []
    · rw [if_pos hd, detail_foldl_shift]
      rw [item_actual_in_stats, if_pos hd]
      ring
    · rw [if_neg hd]
      rw [item_actual_in_stats, if_neg hd]
      ring

/-- `sum_plan_hours` of a present plan is the sum of per-item actual
hours over the plan's items. -/
lemma sum_plan_hours_eq_sum (s : Store) (pid : ℕ)
    (h : (get_plan s pid).isSome) :
    sum_plan_hours s pid = ((plan_items s pid).map item_actual_in_stats).sum := by
  cases hq : get_plan s pid with
  | none => rw [hq] at h; simp at h
  | some q =>
    have hqid : q.id = pid := by
      have := List.find?_some (hq : s.plans.find? (fun p => p.id == pid) = some q)
      exact beq_iff_eq.mp this
    simp only [sum_plan_hours, hq]
    rw [hqid, item_foldl_shift]
    ring

/-- C5: every requested plan id appears in the `get_plan_item_stats`
result; its entry accumulates, over the plan's items, `estimated_hours`
(null as 0) into `estimated`, the item actual hours (detail sum with
null details skipped when the item has details, else `estimated_hours`
or 0) into `actual`, and the item count into `items` — the two hour
fields carrying the final `round(·, 1)`; a requested plan with zero
items keeps the seeded all-zero entry. -/
theorem get_plan_item_stats_accumulation (s : Store) (pids : List ℕ)
    (pid : ℕ) (hne : pids ≠ []) (hmem : pid ∈ pids) :
    alookup (get_plan_item_stats s pids) pid =
      some ⟨pyRound1
              ((plan_items s pid).map fun it => it.estimated_hours.getD 0).sum,
            pyRound1 ((plan_items s pid).map item_actual_in_stats).sum,
            (plan_items s pid).length⟩ :=
  get_plan_item_stats_entry s pids pid hne hmem

/-- The store of the C5 witness: plan 1 holds one item of 2 estimated
hours and no details; plan 2 exists with zero items. -/
def c5Store : Store :=
  ⟨[], [⟨1, 1, 1, "draft"⟩, ⟨2, 1, 2, "draft"⟩], [⟨1, 1, some 2, []⟩], 1⟩

theorem get_plan_item_stats_accumulation_witness :
    (([1, 2] : List ℕ) ≠ [] ∧ 2 ∈ ([1, 2] : List ℕ)) ∧
      alookup (get_plan_item_stats c5Store [1, 2]) 2 =
        some ⟨pyRound1
                ((plan_items c5Store 2).map
                  fun it => it.estimated_hours.getD 0).sum,
              pyRound1 ((plan_items c5Store 2).map item_actual_in_stats).sum,
              (plan_items c5Store 2).length⟩ :=
  ⟨⟨by decide, by decide⟩,
   get_plan_item_stats_accumulation c5Store [1, 2] 2 (by decide) (by decide)⟩

/-- C1 (amended): the `estimated` and `actual` outputs of
`get_plan_item_stats` are the accumulated sums rounded by Python's
`round(·, 1)` — nearest tenth with ties to the even tenth, not half-up. -/
theorem get_plan_item_stats_rounds_half_even (s : Store) (pids : List ℕ)
    (pid : ℕ) (hne : pids ≠ []) (hmem : pid ∈ pids) :
    (alookup (get_plan_item_stats s pids) pid).map Stats.estimated =
        some (pyRound1
          ((plan_items s pid).map fun it => it.estimated_hours.getD 0).sum) ∧
      (alookup (get_plan_item_stats s pids) pid).map Stats.actual =
        some (pyRound1
          ((plan_items s pid).map item_actual_in_stats).sum) := by
  rw [get_plan_item_stats_entry s pids pid hne hmem]
  exact ⟨rfl, rfl⟩

/-- The store of the C1 counterexample: plan 1 holds one item whose
estimated hours are 3.05 and whose detail hours are 1.5 and 1.55
(summing to 3.05). -/
def c1Store : Store :=
  ⟨[], [⟨1, 1, 1, "draft"⟩],
   [⟨1, 1, some (61 / 20), [⟨some (3 / 2)⟩, ⟨some (31 / 20)⟩]⟩], 1⟩

theorem get_plan_item_stats_rounds_half_even_witness :
    (([1] : List ℕ) ≠ [] ∧ 1 ∈ ([1] : List ℕ)) ∧
      ((alookup (get_plan_item_stats c1Store [1]) 1).map Stats.estimated =
          some (pyRound1
            ((plan_items c1Store 1).map
              fun it => it.estimated_hours.getD 0).sum) ∧
        (alookup (get_plan_item_stats c1Store [1]) 1).map Stats.actual =
          some (pyRound1
            ((plan_items c1Store 1).map item_actual_in_stats).sum)) :=
  ⟨⟨by decide, by decide⟩,
   get_plan_item_stats_rounds_half_even c1Store [1] 1 (by decide) (by decide)⟩

/-- C1 (counterexample to the claim as stated): for the plan whose item
hours sum to 3.05 — both as estimated hours and as detail hours —
`get_plan_item_stats` reports 3.0 for both fields, not the 3.1 that
half-up rounding would give. -/
theorem get_plan_item_stats_3_05_reports_3_0 :
    alookup (get_plan_item_stats c1Store [1]) 1 = some ⟨3, 3, 1⟩ ∧
      (3 : ℚ) ≠ 31 / 10 := by
  constructor
  · rw [get_plan_item_stats_entry c1Store [1] 1 (by decide) (by decide)]
    have hitems : plan_items c1Store 1 =
        [⟨1, 1, some (61 / 20), [⟨some (3 / 2)⟩, ⟨some (31 / 20)⟩]⟩] := rfl
    rw [hitems]
    have hest : (([(⟨1, 1, some (61 / 20),
          [⟨some (3 / 2)⟩, ⟨some (31 / 20)⟩]⟩ : PlanItem)]).map
        fun it => it.estimated_hours.getD 0).sum = 61 / 20 := by
      simp
    have hact : (([(⟨1, 1, some (61 / 20),
          [⟨some (3 / 2)⟩, ⟨some (31 / 20)⟩]⟩ : PlanItem)]).map
        item_actual_in_stats).sum = 61 / 20 := by
      simp [item_actual_in_stats]
      norm_num
    rw [hest, hact, pyRound1_3_05]
    rfl
  · norm_num

/-- C7 (amended): an unknown plan id is signalled by `get_plan` as an
absent result (`None`), but `sum_plan_hours` signals it by returning the
number 0.0 — a present value, indistinguishable from a known plan with
no hours; neither raises. -/
theorem unknown_plan_id_behavior (s : Store) (pid : ℕ)
    (h : ∀ p ∈ s.plans, p.id ≠ pid) :
    get_plan s pid = none ∧ sum_plan_hours s pid = 0 := by
  have hfind : s.plans.find? (fun p => p.id == pid) = none := by
    rw [List.find?_eq_none]
    intro p hp
    simp only [beq_iff_eq]
    exact h p hp
  constructor
  · exact hfind
  · simp only [sum_plan_hours, get_plan, hfind]

theorem unknown_plan_id_behavior_witness :
    (∀ p ∈ (⟨[], [⟨2, 1, 1, "draft"⟩], [], 1⟩ : Store).plans, p.id ≠ 1) ∧
      (get_plan (⟨[], [⟨2, 1, 1, "draft"⟩], [], 1⟩ : Store) 1 = none ∧
        sum_plan_hours (⟨[], [⟨2, 1, 1, "draft"⟩], [], 1⟩ : Store) 1 = 0) :=
  ⟨by decide,
   unknown_plan_id_behavior ⟨[], [⟨2, 1, 1, "draft"⟩], [], 1⟩ 1 (by decide)⟩

/-- A store holding plan 1 with no items, for the C7 counterexample. -/
def c7PresentStore : Store := ⟨[], [⟨1, 1, 1, "draft"⟩], [], 1⟩

/-- C7 (counterexample to the claim as stated): for the unknown plan id
1, `get_plan` does return an absent result, but `sum_plan_hours` returns
the number 0.0 rather than an absent result — the same value it returns
for the present, empty plan 1 of `c7PresentStore`. -/
theorem sum_plan_hours_unknown_id_returns_zero :
    get_plan emptyStore 1 = none ∧ sum_plan_hours emptyStore 1 = 0 ∧
      sum_plan_hours emptyStore 1 = sum_plan_hours c7PresentStore 1 :=
  ⟨rfl, rfl, rfl⟩

/-- C10: for a plan present in the store, the `actual` field that
`get_plan_item_stats` reports for it equals `sum_plan_hours` of the plan
rounded by `round(·, 1)` — the single-plan total and the batch stats
aggregate the same per-item actual hours, differing only by the final
rounding of the batch path. -/
theorem batch_actual_matches_sum_plan_hours (s : Store) (p : WeeklyPlan)
    (hp : p ∈ s.plans) :
    (alookup (get_plan_item_stats s [p.id]) p.id).map Stats.actual =
      some (pyRound1 (sum_plan_hours s p.id)) := by
  have hsome : (get_plan s p.id).isSome := by
    rw [get_plan, List.find?_isSome]
    exact ⟨p, hp, by simp⟩
  rw [get_plan_item_stats_entry s [p.id] p.id (by simp) (by simp)]
  rw [sum_plan_hours_eq_sum s p.id hsome]
  rfl

/-- The store of the C10 witness: plan 1 holds one item of 2 estimated
hours and no details. -/
def c10Store : Store :=
  ⟨[], [⟨1, 1, 1, "draft"⟩], [⟨1, 1, some 2, []⟩], 1⟩

theorem batch_actual_matches_sum_plan_hours_witness :
    (⟨1, 1, 1, "draft"⟩ : WeeklyPlan) ∈ c10Store.plans ∧
      (alookup
          (get_plan_item_stats c10Store
            [(⟨1, 1, 1, "draft"⟩ : WeeklyPlan).id])
          (⟨1, 1, 1, "draft"⟩ : WeeklyPlan).id).map Stats.actual =
        some (pyRound1
          (sum_plan_hours c10Store (⟨1, 1, 1, "draft"⟩ : WeeklyPlan).id)) :=
  ⟨List.mem_singleton.mpr rfl,
   batch_actual_matches_sum_plan_hours c10Store ⟨1, 1, 1, "draft"⟩
     (List.mem_singleton.mpr rfl)⟩

/-! ## Scheduler auto-send guard (`scheduler.try_auto_send_week_plans`)

One tick walks every user's persisted email configuration.  The fields
below are the ones the tick reads: `schedule_time` holds the result of
`_parse_hhmm` (`none` for an unparseable value, which skips the user),
`schedule_weekday` the already-defaulted integer weekday.  A `TickCtx`
carries what the tick samples from its environment: the period key
`f"{year}-W{week_no}"` derived from `ensure_period(now.date())`,
`now.isoweekday()`, whether `now.time()` has reached a given send time,
whether the user has a submitted plan for the period, and whether
`send_plan_email` succeeds.  The guard write is embedded exactly as the
source orders it: `last_auto_sent_key` is set after the send attempt on
the success path and in the `except` handler alike; the attempt flag
returned alongside records whether `send_plan_email` was invoked. -/

structure SchedCfg where
  schedule_enabled : Bool
  schedule_weekday : ℤ
  schedule_time : Option (ℤ × ℤ)
  last_auto_sent_key : Option String
deriving DecidableEq

structure TickCtx where
  key : String
  weekday : ℤ
  timeReached : ℤ × ℤ → Bool
  hasSubmittedPlan : ℕ → Bool
  sendOk : ℕ → Bool

/-- The per-user body of `try_auto_send_week_plans`: returns the user's
configuration after the iteration and whether a send was attempted. -/
def process_user (ctx : TickCtx) (uid : ℕ) (cfg : SchedCfg) :
    SchedCfg × Bool :=
  if ¬ cfg.schedule_enabled then (cfg, false)
  else
    match cfg.schedule_time with
    | none => (cfg, false)
    | some send_at =>
      if ctx.weekday ≠ cfg.schedule_weekday then (cfg, false)
      else if ¬ ctx.timeReached send_at then (cfg, false)
      else if cfg.last_auto_sent_key = some ctx.key then (cfg, false)
      else
        if ctx.hasSubmittedPlan uid then
          if ctx.sendOk uid then
            ({ cfg with last_auto_sent_key := some ctx.key }, true)
          else
            ({ cfg with last_auto_sent_key := some ctx.key }, true)
        else ({ cfg with last_auto_sent_key := some ctx.key }, false)

/-- The configurations after one scheduler tick: every user's entry is
replaced by the result of its loop iteration. -/
def tickConfigs (ctx : TickCtx) (configs : List (ℕ × SchedCfg)) :
    List (ℕ × SchedCfg) :=
  configs.map fun e => (e.1, (process_user ctx e.1 e.2).1)

/-- The users for whom one scheduler tick attempted a send. -/
def tickAttempts (ctx : TickCtx) (configs : List (ℕ × SchedCfg)) : List ℕ :=
  configs.filterMap fun e =>
    if (process_user ctx e.1 e.2).2 then some e.1 else none

/-- One scheduler tick over all users. -/
def tick (ctx : TickCtx) (configs : List (ℕ × SchedCfg)) :
    List (ℕ × SchedCfg) × List ℕ :=
  (tickConfigs ctx configs, tickAttempts ctx configs)

/-- A sequence of scheduler ticks, collecting every send attempt. -/
def runTicks : List TickCtx → List (ℕ × SchedCfg) →
    List (ℕ × SchedCfg) × List ℕ
  | [], configs => (configs, [])
  | ctx :: rest, configs =>
    ((runTicks rest (tickConfigs ctx configs)).1,
     tickAttempts ctx configs ++
       (runTicks rest (tickConfigs ctx configs)).2)

/-- A tick either leaves a user's configuration untouched without an
attempt, or (only when the stored guard differs from the tick key)
writes the tick key into the guard. -/
lemma process_user_cases (ctx : TickCtx) (uid : ℕ) (cfg : SchedCfg) :
    process_user ctx uid cfg = (cfg, false) ∨
      ((process_user ctx uid cfg).1.last_auto_sent_key = some ctx.key ∧
        cfg.last_auto_sent_key ≠ some ctx.key) := by
  unfold process_user
  split
  · left
    rfl
  · split
    · left
      rfl
    · split
      · left
        rfl
      · split
        · left
          rfl
        · split
          · left
            rfl
          · rename_i hguard
            right
            refine ⟨?_, hguard⟩
            split
            · split <;> rfl
            · rfl

lemma process_user_skip (ctx : TickCtx) (uid : ℕ) (cfg : SchedCfg)
    (h : cfg.last_auto_sent_key = some ctx.key) :
    process_user ctx uid cfg = (cfg, false) := by
  rcases process_user_cases ctx uid cfg with hc | ⟨_, hne⟩
  · exact hc
  · exact absurd h hne

lemma process_user_attempt_writes (ctx : TickCtx) (uid : ℕ) (cfg : SchedCfg)
    (h : (process_user ctx uid cfg).2 = true) :
    (process_user ctx uid cfg).1.last_auto_sent_key = some ctx.key := by
  rcases process_user_cases ctx uid cfg with hc | ⟨hw, _⟩
  · rw [hc] at h
    exact absurd h (by simp)
  · exact hw

lemma tickConfigs_keys (ctx : TickCtx) (configs : List (ℕ × SchedCfg)) :
    (tickConfigs ctx configs).map Prod.fst = configs.map Prod.fst := by
  rw [tickConfigs, List.map_map]
  rfl

lemma alookup_tickConfigs (ctx : TickCtx) :
    ∀ (configs : List (ℕ × SchedCfg)) (u : ℕ),
      alookup (tickConfigs ctx configs) u =
        (alookup configs u).map fun c => (process_user ctx u c).1 := by
  intro configs
  induction configs with
  | nil => intro u; rfl
  | cons e rest ih =>
    intro u
    obtain ⟨u', c'⟩ := e
    rw [tickConfigs, List.map_cons, alookup, alookup]
    by_cases hu : u' = u
    · rw [if_pos hu, if_pos hu]
      subst hu
      rfl
    · rw [if_neg hu, if_neg hu]
      exact ih u

lemma tickAttempts_subset (ctx : TickCtx) (configs : List (ℕ × SchedCfg))
    (v : ℕ) (h : v ∈ tickAttempts ctx configs) :
    v ∈ configs.map Prod.fst := by
  rw [tickAttempts] at h
  rcases List.mem_filterMap.mp h with ⟨e, he, hv⟩
  by_cases hatt : (process_user ctx e.1 e.2).2
  · rw [if_pos hatt] at hv
    rcases Option.some.injEq .. ▸ hv with rfl
    exact List.mem_map_of_mem Prod.fst he
  · rw [if_neg hatt] at hv
    exact absurd hv (by simp)

lemma alookup_isSome_of_mem_keys :
    ∀ (configs : List (ℕ × SchedCfg)) (u : ℕ),
      u ∈ configs.map Prod.fst → (alookup configs u).isSome := by
  intro configs
  induction configs with
  | nil => intro u h; simp at h
  | cons e rest ih =>
    intro u h
    obtain ⟨u', c'⟩ := e
    rw [alookup]
    by_cases hu : u' = u
    · rw [if_pos hu]
      rfl
    · rw [if_neg hu]
      apply ih
      rcases List.mem_cons.mp h with h | h
      · exact absurd h.symm hu
      · exact h

lemma count_tickAttempts_zero (ctx : TickCtx) (configs : List (ℕ × SchedCfg))
    (u : ℕ) (hnone : alookup configs u = none) :
    (tickAttempts ctx configs).count u = 0 := by
  rw [List.count_eq_zero]
  intro hmem
  have := alookup_isSome_of_mem_keys configs u
    (tickAttempts_subset ctx configs u hmem)
  rw [hnone] at this
  simp at this

lemma count_tickAttempts_of_alookup (ctx : TickCtx) :
    ∀ (configs : List (ℕ × SchedCfg)) (u : ℕ) (c : SchedCfg),
      (configs.map Prod.fst).Nodup → alookup configs u = some c →
      (tickAttempts ctx configs).count u =
        if (process_user ctx u c).2 then 1 else 0 := by
  intro configs
  induction configs with
  | nil => intro u c _ hl; simp [alookup] at hl
  | cons e rest ih =>
    intro u c hnd hl
    obtain ⟨u', c'⟩ := e
    rw [List.map_cons, List.nodup_cons] at hnd
    rw [alookup] at hl
    rw [tickAttempts, List.filterMap_cons]
    by_cases hu : u' = u
    · rw [if_pos hu] at hl
      subst hu
      have hcc : c' = c := by simpa using hl
      subst hcc
      have hrest : (List.filterMap
          (fun e => if (process_user ctx e.1 e.2).2 then some e.1 else none)
          rest).count u' = 0 := by
        rw [List.count_eq_zero]
        intro hmem
        exact hnd.1 (tickAttempts_subset ctx rest u' hmem)
      cases hatt : (process_user ctx u' c').2 with
      | true => simp [hatt, hrest]
      | false => simp [hatt, hrest]
    · rw [if_neg hu] at hl
      have htail := ih u c hnd.2 hl
      rw [tickAttempts] at htail
      cases hatt : (process_user ctx u' c').2 with
      | true =>
        simp only [hatt, if_true]
        rw [List.count_cons_of_ne (fun hc => hu hc.symm)]
        exact htail
      | false =>
        simp only [hatt, Bool.false_eq_true, if_false]
        exact htail

/-- Once a user's stored guard equals the common period key, no tick of
the sequence attempts a send for that user, and the guard stays put. -/
lemma runTicks_no_attempts (k : String) :
    ∀ (ctxs : List TickCtx) (configs : List (ℕ × SchedCfg)) (u : ℕ)
      (c : SchedCfg),
      (∀ ctx ∈ ctxs, ctx.key = k) → (configs.map Prod.fst).Nodup →
      alookup configs u = some c → c.last_auto_sent_key = some k →
      (runTicks ctxs configs).2.count u = 0 := by
  intro ctxs
  induction ctxs with
  | nil =>
    intro configs u c _ _ _ _
    rfl
  | cons ctx rest ih =>
    intro configs u c hk hnd hl hguard
    have hkey : ctx.key = k := hk ctx (List.mem_cons_self _ _)
    have hskip : process_user ctx u c = (c, false) :=
      process_user_skip ctx u c (hkey ▸ hguard)
    rw [runTicks, List.count_append]
    have h1 : (tickAttempts ctx configs).count u = 0 := by
      rw [count_tickAttempts_of_alookup ctx configs u c hnd hl, hskip]
      simp
    have h2 : (runTicks rest (tickConfigs ctx configs)).2.count u = 0 := by
      apply ih (tickConfigs ctx configs) u c
        (fun c hc => hk c (List.mem_cons_of_mem _ hc)) ?_ ?_ hguard
      · rw [tickConfigs_keys]
        exact hnd
      · rw [alookup_tickConfigs, hl, Option.map_some', hskip]
    rw [h1, h2]

/-- C8: across any sequence of scheduler ticks that share one period
key, at most one send attempt is made per user — the persisted
`last_auto_sent_key` guard is checked before sending and written after
the attempt whether the send succeeds or fails, so a later tick with the
same key never sends again. -/
theorem scheduler_at_most_once_per_key (ctxs : List TickCtx)
    (configs : List (ℕ × SchedCfg)) (k : String) (u : ℕ)
    (hk : ∀ ctx ∈ ctxs, ctx.key = k)
    (hnd : (configs.map Prod.fst).Nodup) :
    (runTicks ctxs configs).2.count u ≤ 1 := by
  induction ctxs generalizing configs with
  | nil => simp [runTicks]
  | cons ctx rest ih =>
    have hkey : ctx.key = k := hk ctx (List.mem_cons_self _ _)
    have hktail : ∀ c ∈ rest, TickCtx.key c = k :=
      fun c hc => hk c (List.mem_cons_of_mem _ hc)
    have hndtail : ((tickConfigs ctx configs).map Prod.fst).Nodup := by
      rw [tickConfigs_keys]
      exact hnd
    rw [runTicks, List.count_append]
    cases hl : alookup configs u with
    | none =>
      rw [count_tickAttempts_zero ctx configs u hl]
      have : alookup (tickConfigs ctx configs) u = none := by
        rw [alookup_tickConfigs, hl]
        rfl
      calc 0 + (runTicks rest (tickConfigs ctx configs)).2.count u
          ≤ 0 + 1 := by
            exact Nat.add_le_add_left
              (ih (tickConfigs ctx configs) hktail hndtail) 0
        _ = 1 := by omega
    | some c =>
      cases hatt : (process_user ctx u c).2 with
      | false =>
        rw [count_tickAttempts_of_alookup ctx configs u c hnd hl, hatt]
        simp only [Bool.false_eq_true, if_false]
        have := ih (tickConfigs ctx configs) hktail hndtail
        omega
      | true =>
        rw [count_tickAttempts_of_alookup ctx configs u c hnd hl, hatt]
        simp only [if_true]
        have hzero : (runTicks rest (tickConfigs ctx configs)).2.count u
            = 0 := by
          apply runTicks_no_attempts k rest (tickConfigs ctx configs) u
            ((process_user ctx u c).1) hktail hndtail
          · rw [alookup_tickConfigs, hl, Option.map_some']
          · rw [process_user_attempt_writes ctx u c hatt, hkey]
        omega

/-- Tick context of the C8 witness: key 2024-W5, Monday, send time
reached, the user has a submitted plan, sending succeeds. -/
def c8Ctx : TickCtx :=
  ⟨"2024-W5", 1, fun _ => true, fun _ => true, fun _ => true⟩

/-- Configuration of the C8 witness user: scheduling enabled for Monday
09:00, nothing sent yet. -/
def c8Cfg : SchedCfg := ⟨true, 1, some (9, 0), none⟩

theorem scheduler_at_most_once_per_key_witness :
    (∀ ctx ∈ [c8Ctx, c8Ctx], TickCtx.key ctx = "2024-W5") ∧
      (([(1, c8Cfg)] : List (ℕ × SchedCfg)).map Prod.fst).Nodup ∧
      (runTicks [c8Ctx, c8Ctx] [(1, c8Cfg)]).2.count 1 ≤ 1 :=
  ⟨by
     intro ctx h
     rcases List.mem_cons.mp h with rfl | h
     · rfl
     · rcases List.mem_cons.mp h with rfl | h
       · rfl
       · simp at h,
   by decide,
   scheduler_at_most_once_per_key [c8Ctx, c8Ctx] [(1, c8Cfg)] "2024-W5" 1
     (by
       intro ctx h
       rcases List.mem_cons.mp h with rfl | h
       · rfl
       · rcases List.mem_cons.mp h with rfl | h
         · rfl
         · simp at h)
     (by decide)⟩
